import Mathlib

set_option maxRecDepth 8000

/-!
Verification of `src/fix_errors.py`: a one-shot textual migration that
rewrites tuple-style `DbError` constructor calls into struct-literal form
via three `re.sub` rules.  The regular expressions have the shape
`DbError::VariantName\(([^)]+)\)`: a literal trigger followed by a
non-empty greedy run of non-`)` characters and a closing `)`.
We embed the substitution on `List Char` and the `__main__` file cycle
as an explicit state transformer.
-/

/-- Characters admissible inside a captured argument: anything but `)`.
This is the `[^)]` character class of the source regexes. -/
def isArgChar (c : Char) : Bool := c ≠ ')'

/-- Attempt the `([^)]+)\)` part of the regex at the head of `l`:
greedily take the maximal run of non-`)` characters; succeed when that run
is non-empty and is followed by a literal `)`.  Returns the captured
argument and the text after the closing parenthesis. -/
def takeArg (l : List Char) : Option (List Char × List Char) :=
  if (l.takeWhile isArgChar).isEmpty || (l.dropWhile isArgChar).isEmpty then none
  else some (l.takeWhile isArgChar, (l.dropWhile isArgChar).tail)

/-- Fuel-indexed scanner for one `re.sub` pass: at each position, if the
literal trigger `pat` matches and `takeArg` succeeds after it, emit
`pre ++ arg ++ post` and resume after the closing parenthesis; otherwise
keep the character and advance one position. -/
def reSubFuel (pat pre post : List Char) : Nat → List Char → List Char
  | _, [] => []
  | 0, l => l
  | fuel + 1, c :: rest =>
    if pat.isPrefixOf (c :: rest) then
      match takeArg ((c :: rest).drop pat.length) with
      | some (a, r) => pre ++ a ++ post ++ reSubFuel pat pre post fuel r
      | none => c :: reSubFuel pat pre post fuel rest
    else c :: reSubFuel pat pre post fuel rest

/-- One `re.sub` pass with pattern `pat ++ ([^)]+) ++ )` and replacement
template `pre ++ \1 ++ post`, as in the source. -/
def reSub (pat pre post l : List Char) : List Char :=
  reSubFuel pat pre post l.length l

/-- Trigger of the first rule. -/
def patInternal : List Char := ("DbError::InternalError(").data

/-- Replacement text before the captured argument, first rule. -/
def preInternal : List Char := ("DbError::InternalError \x7b message: ").data

/-- Replacement text after the captured argument, first rule. -/
def postInternal : List Char := (", context: None, debug_info: None \x7d").data

/-- Trigger of the second rule. -/
def patInvalid : List Char := ("DbError::InvalidData(").data

/-- Replacement text before the captured argument, second rule. -/
def preInvalid : List Char := ("DbError::InvalidData \x7b message: ").data

/-- Replacement text after the captured argument, second rule. -/
def postInvalid : List Char := (", field: None, expected_format: None \x7d").data

/-- Trigger of the third rule. -/
def patSignature : List Char := ("DbError::SignatureError(").data

/-- Replacement text before the captured argument, third rule. -/
def preSignature : List Char := ("DbError::SignatureError \x7b message: ").data

/-- Replacement text after the captured argument, third rule. -/
def postSignature : List Char := (", public_key: None, signature: None \x7d").data

/-- First substitution rule of `fix_error_variants`. -/
def ruleInternal (l : List Char) : List Char := reSub patInternal preInternal postInternal l

/-- Second substitution rule of `fix_error_variants`. -/
def ruleInvalid (l : List Char) : List Char := reSub patInvalid preInvalid postInvalid l

/-- Third substitution rule of `fix_error_variants`. -/
def ruleSignature (l : List Char) : List Char := reSub patSignature preSignature postSignature l

/-- Function `fix_error_variants` from `src/fix_errors.py`: the three
substitution rules applied in declaration order. -/
def fix_error_variants (s : String) : String :=
  ⟨ruleSignature (ruleInvalid (ruleInternal s.data))⟩

/-- Test that `q` occurs as a contiguous substring of `l`. -/
def occursIn (q : List Char) : List Char → Bool
  | [] => q.isEmpty
  | c :: rest => q.isPrefixOf (c :: rest) || occursIn q rest

/-- Some position of `l` carries a full regex match for trigger `pat`. -/
def hasMatch (pat : List Char) : List Char → Bool
  | [] => false
  | c :: rest =>
    (pat.isPrefixOf (c :: rest) && (takeArg ((c :: rest).drop pat.length)).isSome)
      || hasMatch pat rest

/-- Test that `a` is a suffix of `b`. -/
def isSufB (a : List Char) (b : List Char) : Bool :=
  match b with
  | [] => a.isEmpty
  | _ :: b' => a == b || isSufB a b'

/-- Outcome of one run of the script: resulting file system state for the
hard-coded path, the lines printed to standard output, and whether the
process exited successfully. -/
structure MainResult where
  fs : Option String
  stdout : List String
  exitOk : Bool
deriving Repr, DecidableEq

/-- Model of the `__main__` block: read `src/graphql.rs` (a missing file
raises before anything is written), transform, write back, print the fixed
confirmation line.  The argument vector is never consulted by the source,
so the model ignores it. -/
def runMain (_argv : List String) (fs : Option String) : MainResult :=
  match fs with
  | none => ⟨none, [], false⟩
  | some content =>
    ⟨some (fix_error_variants content), ["Fixed error variants in src/graphql.rs"], true⟩

/-- The empty-argument call text of the first variant. -/
def emptyCallInternal : List Char := ("DbError::InternalError()").data

/-- The bare variant name of the first rule. -/
def nameInternal : List Char := ("InternalError").data

/-- The bare variant name of the second rule. -/
def nameInvalid : List Char := ("InvalidData").data

/-- The bare variant name of the third rule. -/
def nameSignature : List Char := ("SignatureError").data

/-- The variant name of the first rule together with its opening parenthesis. -/
def callIntOpen : List Char := ("InternalError(").data

theorem isPrefixOf_eq_true_iff : ∀ (a b : List Char), a.isPrefixOf b = true ↔ ∃ t, a ++ t = b
  | [], b => by simp [List.isPrefixOf]
  | _ :: _, [] => by simp [List.isPrefixOf]
  | a :: as, b :: bs => by
    simp only [List.isPrefixOf, Bool.and_eq_true, beq_iff_eq]
    constructor
    · rintro ⟨rfl, h⟩
      obtain ⟨t, rfl⟩ := (isPrefixOf_eq_true_iff as bs).mp h
      exact ⟨t, rfl⟩
    · rintro ⟨t, h⟩
      injection h with h1 h2
      exact ⟨h1, (isPrefixOf_eq_true_iff as bs).mpr ⟨t, h2⟩⟩

theorem isSufB_eq_true_iff (a : List Char) : ∀ (b : List Char), isSufB a b = true ↔ ∃ s, s ++ a = b
  | [] => by
    constructor
    · intro h
      have : a = [] := by
        cases a
        · rfl
        · simp [isSufB] at h
      exact ⟨[], by simp [this]⟩
    · rintro ⟨s, h⟩
      have hs : s = [] ∧ a = [] := by
        constructor
        · cases s
          · rfl
          · simp at h
        · cases a
          · rfl
          · rcases s with _ | ⟨c, s'⟩ <;> simp at h
      simp [isSufB, hs.2]
  | c :: b' => by
    simp only [isSufB, Bool.or_eq_true, beq_iff_eq]
    constructor
    · rintro (rfl | h)
      · exact ⟨[], rfl⟩
      · obtain ⟨s, rfl⟩ := (isSufB_eq_true_iff a b').mp h
        exact ⟨c :: s, rfl⟩
    · rintro ⟨s, h⟩
      rcases s with _ | ⟨c', s'⟩
      · exact Or.inl (by simpa using h)
      · injection h with h1 h2
        exact Or.inr ((isSufB_eq_true_iff a b').mpr ⟨s', h2⟩)

theorem occursIn_eq_true_iff (q : List Char) :
    ∀ (l : List Char), occursIn q l = true ↔ ∃ s t, s ++ q ++ t = l
  | [] => by
    simp only [occursIn, List.isEmpty_iff]
    constructor
    · rintro rfl
      exact ⟨[], [], rfl⟩
    · rintro ⟨s, t, h⟩
      rcases s with _ | ⟨c, s'⟩
      · rcases q with _ | ⟨c, q'⟩
        · rfl
        · simp at h
      · simp at h
  | c :: rest => by
    simp only [occursIn, Bool.or_eq_true]
    constructor
    · rintro (h | h)
      · obtain ⟨t, ht⟩ := (isPrefixOf_eq_true_iff q (c :: rest)).mp h
        exact ⟨[], t, by simpa using ht⟩
      · obtain ⟨s, t, ht⟩ := (occursIn_eq_true_iff q rest).mp h
        exact ⟨c :: s, t, by rw [← ht]; simp⟩
    · rintro ⟨s, t, ht⟩
      rcases s with _ | ⟨c', s'⟩
      · exact Or.inl ((isPrefixOf_eq_true_iff q (c :: rest)).mpr ⟨t, by simpa using ht⟩)
      · injection ht with h1 h2
        exact Or.inr ((occursIn_eq_true_iff q rest).mpr ⟨s', t, by simpa using h2⟩)

theorem occursIn_cons (q : List Char) (c : Char) (rest : List Char) :
    occursIn q (c :: rest) = (q.isPrefixOf (c :: rest) || occursIn q rest) := rfl

theorem occursIn_mono {q m l : List Char} (hqm : occursIn q m = true)
    (hml : occursIn m l = true) : occursIn q l = true := by
  obtain ⟨s1, t1, h1⟩ := (occursIn_eq_true_iff q m).mp hqm
  obtain ⟨s2, t2, h2⟩ := (occursIn_eq_true_iff m l).mp hml
  exact (occursIn_eq_true_iff q l).mpr ⟨s2 ++ s1, t1 ++ t2, by rw [← h2, ← h1]; simp⟩

theorem occursIn_false_sub {q m l : List Char} (hml : occursIn m l = true)
    (h : occursIn q l = false) : occursIn q m = false := by
  cases hqm : occursIn q m
  · rfl
  · rw [occursIn_mono hqm hml] at h
    cases h

theorem occursIn_false_lift {q m l : List Char} (hqm : occursIn q m = true)
    (h : occursIn q l = false) : occursIn m l = false := by
  cases hml : occursIn m l
  · rfl
  · rw [occursIn_mono hqm hml] at h
    cases h

theorem mem_of_occursIn {q l : List Char} {c : Char} (h : occursIn q l = true)
    (hc : c ∈ q) : c ∈ l := by
  obtain ⟨s, t, rfl⟩ := (occursIn_eq_true_iff q l).mp h
  simp [hc]

theorem takeLenAppend : ∀ (a b : List Char), (a ++ b).take a.length = a
  | [], _ => rfl
  | c :: a', b => by simp [takeLenAppend a' b]

theorem dropLenAppend : ∀ (a b : List Char), (a ++ b).drop a.length = b
  | [], _ => rfl
  | c :: a', b => by simp [dropLenAppend a' b]

theorem takeAppendLe : ∀ (n : Nat) (w b : List Char), n ≤ w.length → (w ++ b).take n = w.take n
  | 0, _, _, _ => rfl
  | n + 1, [], _, h => by simp at h
  | n + 1, c :: w', b, h => by
    simp only [List.cons_append, List.take_succ_cons]
    rw [takeAppendLe n w' b (by simpa using h)]

theorem dropAppendLe : ∀ (n : Nat) (w b : List Char), n ≤ w.length → (w ++ b).drop n = w.drop n ++ b
  | 0, _, _, _ => rfl
  | n + 1, [], _, h => by simp at h
  | n + 1, c :: w', b, h => by
    simp only [List.cons_append, List.drop_succ_cons]
    exact dropAppendLe n w' b (by simpa using h)

theorem isPrefixOf_append_split {q w b : List Char} (h : q.isPrefixOf (w ++ b) = true) :
    (q.length ≤ w.length ∧ q.isPrefixOf w = true) ∨
      (w.length < q.length ∧ q.take w.length = w ∧ (q.drop w.length).isPrefixOf b = true) := by
  obtain ⟨t, ht⟩ := (isPrefixOf_eq_true_iff q (w ++ b)).mp h
  by_cases hlen : q.length ≤ w.length
  · left
    refine ⟨hlen, (isPrefixOf_eq_true_iff q w).mpr ⟨w.drop q.length, ?_⟩⟩
    have h1 : (q ++ t).take q.length = q := takeLenAppend q t
    have h2 : (w ++ b).take q.length = w.take q.length := takeAppendLe _ w b hlen
    have hq : q = w.take q.length := by
      have hc := congrArg (List.take q.length) ht
      rw [h1, h2] at hc
      exact hc
    have h3 := List.take_append_drop q.length w
    rw [← hq] at h3
    exact h3
  · right
    have hlt : w.length < q.length := Nat.lt_of_not_le hlen
    have hle : w.length ≤ q.length := Nat.le_of_lt hlt
    have h1 : (q ++ t).take w.length = q.take w.length := takeAppendLe _ q t hle
    have h2 : (w ++ b).take w.length = w := takeLenAppend w b
    have htk : q.take w.length = w := by rw [← h1, ht, h2]
    have h3 : (q ++ t).drop w.length = q.drop w.length ++ t := dropAppendLe _ q t hle
    have h4 : (w ++ b).drop w.length = b := dropLenAppend w b
    have hdr : q.drop w.length ++ t = b := by rw [← h3, ht, h4]
    exact ⟨hlt, htk, (isPrefixOf_eq_true_iff _ b).mpr ⟨t, hdr⟩⟩

theorem isPrefixOf_shorten {r b1 b2 : List Char} (h : r.isPrefixOf (b1 ++ b2) = true)
    (hl : r.length ≤ b1.length) : r.isPrefixOf b1 = true := by
  rcases isPrefixOf_append_split h with ⟨_, hp⟩ | ⟨hlt, _, _⟩
  · exact hp
  · omega

theorem isSufB_self : ∀ (a : List Char), isSufB a a = true
  | [] => rfl
  | c :: a' => by simp [isSufB]

theorem isSufB_cons {w u : List Char} {c : Char} (h : isSufB w u = true) :
    isSufB w (c :: u) = true := by
  simp [isSufB, h]

theorem occursIn_of_pref_suf {q w u : List Char} (hpw : q.isPrefixOf w = true)
    (hw : isSufB w u = true) : occursIn q u = true := by
  obtain ⟨t, rfl⟩ := (isPrefixOf_eq_true_iff q w).mp hpw
  obtain ⟨s, rfl⟩ := (isSufB_eq_true_iff _ u).mp hw
  exact (occursIn_eq_true_iff q _).mpr ⟨s, t, by simp⟩

theorem argChar_of_not_mem {X : List Char} (hXc : ')' ∉ X) : ∀ c ∈ X, isArgChar c = true := by
  intro c hc
  simp only [isArgChar, decide_eq_true_eq]
  intro hcc
  exact hXc (hcc ▸ hc)

theorem takeArg_length {l a r : List Char} (h : takeArg l = some (a, r)) :
    r.length < l.length := by
  unfold takeArg at h
  by_cases hb : (l.takeWhile isArgChar).isEmpty || (l.dropWhile isArgChar).isEmpty
  · rw [if_pos hb] at h
    simp at h
  · rw [if_neg hb] at h
    obtain ⟨rfl, rfl⟩ : l.takeWhile isArgChar = a ∧ (l.dropWhile isArgChar).tail = r := by
      simpa using h
    have hd : (l.dropWhile isArgChar).isEmpty = false := by
      cases hx : (l.dropWhile isArgChar).isEmpty
      · rfl
      · exact absurd (by rw [hx]; simp) hb
    have hl : l.takeWhile isArgChar ++ l.dropWhile isArgChar = l :=
      List.takeWhile_append_dropWhile isArgChar l
    have hlen := congrArg List.length hl
    rcases he : l.dropWhile isArgChar with _ | ⟨c, r'⟩
    · rw [he] at hd
      simp at hd
    · rw [he] at hlen
      simp only [List.length_append, List.length_cons] at hlen
      simp only [List.tail_cons]
      omega

theorem takeWhile_arg_append {X v : List Char} (h : ∀ c ∈ X, isArgChar c = true) :
    (X ++ ')' :: v).takeWhile isArgChar = X ∧
      (X ++ ')' :: v).dropWhile isArgChar = ')' :: v := by
  induction X with
  | nil =>
    constructor <;> simp [List.takeWhile, List.dropWhile, isArgChar]
  | cons c X ih =>
    have hc : isArgChar c = true := h c (by simp)
    obtain ⟨ih1, ih2⟩ := ih (fun c' hc' => h c' (by simp [hc']))
    constructor
    · simp [List.takeWhile_cons, hc, ih1]
    · simp [List.dropWhile_cons, hc, ih2]

theorem takeArg_append {X v : List Char} (hX : X ≠ []) (h : ∀ c ∈ X, isArgChar c = true) :
    takeArg (X ++ ')' :: v) = some (X, v) := by
  obtain ⟨htw, hdw⟩ := takeWhile_arg_append h
  unfold takeArg
  rw [hdw, htw]
  simp [List.isEmpty_iff, hX]

theorem reSubFuel_nil (pat pre post : List Char) (f : Nat) :
    reSubFuel pat pre post f [] = [] := by
  cases f <;> rfl

theorem reSubFuel_succ_cons (pat pre post : List Char) (f : Nat) (c : Char) (rest : List Char) :
    reSubFuel pat pre post (f + 1) (c :: rest) =
      if pat.isPrefixOf (c :: rest) then
        match takeArg ((c :: rest).drop pat.length) with
        | some (a, r) => pre ++ a ++ post ++ reSubFuel pat pre post f r
        | none => c :: reSubFuel pat pre post f rest
      else c :: reSubFuel pat pre post f rest := rfl

theorem reSubFuel_irrel (pat pre post : List Char) :
    ∀ (f g : Nat) (l : List Char), l.length ≤ f → l.length ≤ g →
      reSubFuel pat pre post f l = reSubFuel pat pre post g l := by
  intro f
  induction f with
  | zero =>
    intro g l hf _
    have : l = [] := List.eq_nil_of_length_eq_zero (Nat.le_zero.mp hf)
    subst this
    rw [reSubFuel_nil, reSubFuel_nil]
  | succ f ih =>
    intro g l hf hg
    rcases l with _ | ⟨c, rest⟩
    · rw [reSubFuel_nil, reSubFuel_nil]
    · rcases g with _ | g'
      · simp at hg
      · rw [reSubFuel_succ_cons, reSubFuel_succ_cons]
        by_cases hp : pat.isPrefixOf (c :: rest)
        · rw [if_pos hp, if_pos hp]
          rcases ht : takeArg ((c :: rest).drop pat.length) with _ | ⟨a, r⟩
          · simp only [ht]
            have hr : rest.length ≤ f := by
              simp only [List.length_cons] at hf
              omega
            have hr' : rest.length ≤ g' := by
              simp only [List.length_cons] at hg
              omega
            rw [ih g' rest hr hr']
          · simp only [ht]
            have hlen : r.length < (c :: rest).length := by
              have h1 := takeArg_length ht
              have h2 : ((c :: rest).drop pat.length).length = (c :: rest).length - pat.length :=
                List.length_drop _ _
              omega
            have hr : r.length ≤ f := by
              simp only [List.length_cons] at hlen hf
              omega
            have hr' : r.length ≤ g' := by
              simp only [List.length_cons] at hlen hg
              omega
            rw [ih g' r hr hr']
        · rw [if_neg hp, if_neg hp]
          have hr : rest.length ≤ f := by
            simp only [List.length_cons] at hf
            omega
          have hr' : rest.length ≤ g' := by
            simp only [List.length_cons] at hg
            omega
          rw [ih g' rest hr hr']

theorem reSub_nil (pat pre post : List Char) : reSub pat pre post [] = [] := rfl

theorem reSub_match {pat pre post l a r : List Char} (hl : l ≠ [])
    (hp : pat.isPrefixOf l = true) (ht : takeArg (l.drop pat.length) = some (a, r)) :
    reSub pat pre post l = pre ++ a ++ post ++ reSub pat pre post r := by
  obtain ⟨c, rest, rfl⟩ := List.exists_cons_of_ne_nil hl
  have hlen : r.length < (c :: rest).length := by
    have h1 := takeArg_length ht
    have h2 : ((c :: rest).drop pat.length).length = (c :: rest).length - pat.length :=
      List.length_drop _ _
    omega
  show reSubFuel pat pre post (c :: rest).length (c :: rest) = _
  rw [List.length_cons, reSubFuel_succ_cons, if_pos hp, ht]
  have hirr : reSubFuel pat pre post rest.length r = reSubFuel pat pre post r.length r :=
    reSubFuel_irrel pat pre post rest.length r.length r
      (by simp only [List.length_cons] at hlen; omega) (Nat.le_refl _)
  show pre ++ a ++ post ++ reSubFuel pat pre post rest.length r = _
  rw [hirr]
  rfl

theorem reSub_skip {pat pre post : List Char} {c : Char} {rest : List Char}
    (h : pat.isPrefixOf (c :: rest) = false ∨ takeArg ((c :: rest).drop pat.length) = none) :
    reSub pat pre post (c :: rest) = c :: reSub pat pre post rest := by
  show reSubFuel pat pre post (c :: rest).length (c :: rest) = _
  rw [List.length_cons, reSubFuel_succ_cons]
  rcases h with h | h
  · rw [if_neg (by simp [h])]
    rfl
  · by_cases hp : pat.isPrefixOf (c :: rest)
    · rw [if_pos hp, h]
      rfl
    · rw [if_neg hp]
      rfl

theorem reSub_eq_self_of_hasMatch_false {pat pre post : List Char} :
    ∀ {l : List Char}, hasMatch pat l = false → reSub pat pre post l = l
  | [], _ => reSub_nil pat pre post
  | c :: rest, h => by
    have h2 : hasMatch pat rest = false := by
      cases hm : hasMatch pat rest
      · rfl
      · simp [hasMatch, hm] at h
    have h1 : pat.isPrefixOf (c :: rest) = false ∨
        takeArg ((c :: rest).drop pat.length) = none := by
      cases hp : pat.isPrefixOf (c :: rest)
      · exact Or.inl rfl
      · rcases ht : takeArg ((c :: rest).drop pat.length) with _ | x
        · exact Or.inr rfl
        · simp [hasMatch, hp, ht] at h
    rw [reSub_skip h1, reSub_eq_self_of_hasMatch_false h2]

theorem hasMatch_false_of_occursIn_false {pat : List Char} :
    ∀ {l : List Char}, occursIn pat l = false → hasMatch pat l = false
  | [], _ => rfl
  | c :: rest, h => by
    have hp : pat.isPrefixOf (c :: rest) = false := by
      cases hq : pat.isPrefixOf (c :: rest)
      · rfl
      · simp [occursIn_cons, hq] at h
    have h2 : occursIn pat rest = false := by
      cases hm : occursIn pat rest
      · rfl
      · simp [occursIn_cons, hm] at h
    simp only [hasMatch, hp, Bool.false_and, Bool.false_or]
    exact hasMatch_false_of_occursIn_false h2

theorem reSub_append_of_skip {pat pre post : List Char} :
    ∀ {u t : List Char},
      (∀ w, isSufB w u = true → w ≠ [] → pat.isPrefixOf (w ++ t) = false) →
      reSub pat pre post (u ++ t) = u ++ reSub pat pre post t
  | [], t, _ => by simp
  | c :: u', t, h => by
    have hp : pat.isPrefixOf (c :: (u' ++ t)) = false :=
      h (c :: u') (isSufB_self _) (by simp)
    rw [List.cons_append, reSub_skip (Or.inl hp),
      reSub_append_of_skip (fun w hw hne => h w (isSufB_cons hw) hne)]
    rfl

theorem reSub_head_match {pat pre post X v : List Char} (hpat : pat ≠ []) (hX : X ≠ [])
    (hXc : ∀ c ∈ X, isArgChar c = true) :
    reSub pat pre post (pat ++ (X ++ ')' :: v)) = pre ++ X ++ post ++ reSub pat pre post v := by
  have hp : pat.isPrefixOf (pat ++ (X ++ ')' :: v)) = true :=
    (isPrefixOf_eq_true_iff _ _).mpr ⟨X ++ ')' :: v, rfl⟩
  have ht : takeArg ((pat ++ (X ++ ')' :: v)).drop pat.length) = some (X, v) := by
    rw [dropLenAppend]
    exact takeArg_append hX hXc
  have hne : pat ++ (X ++ ')' :: v) ≠ [] := by
    rcases pat with _ | ⟨c, p'⟩
    · exact absurd rfl hpat
    · simp
  exact reSub_match hne hp ht

theorem occursIn_append_false {q : List Char} :
    ∀ {a b : List Char}, occursIn q a = false → occursIn q b = false →
      (∀ k, k < q.length → 0 < k →
        isSufB (q.take k) a = false ∨ (q.drop k).isPrefixOf b = false) →
      occursIn q (a ++ b) = false
  | [], b, _, h1, _ => by simpa using h1
  | c :: a', b, h0, h1, h2 => by
    have h0' : occursIn q a' = false := by
      cases hx : occursIn q a'
      · rfl
      · simp [occursIn_cons, hx] at h0
    have hrec : occursIn q (a' ++ b) = false := by
      apply occursIn_append_false h0' h1
      intro k hk1 hk2
      rcases h2 k hk1 hk2 with h | h
      · left
        cases hy : isSufB (q.take k) a'
        · rfl
        · rw [isSufB_cons hy] at h
          cases h
      · exact Or.inr h
    have hp : q.isPrefixOf (c :: (a' ++ b)) = false := by
      cases hq : q.isPrefixOf (c :: (a' ++ b))
      · rfl
      · exfalso
        have hq' : q.isPrefixOf ((c :: a') ++ b) = true := by
          rw [List.cons_append]
          exact hq
        rcases isPrefixOf_append_split hq' with ⟨_, hqw⟩ | ⟨hlt, htk, hdr⟩
        · have : occursIn q (c :: a') = true := occursIn_of_pref_suf hqw (isSufB_self _)
          rw [this] at h0
          cases h0
        · rcases h2 (c :: a').length hlt (by simp) with h | h
          · rw [htk, isSufB_self] at h
            cases h
          · rw [hdr] at h
            cases h
    rw [List.cons_append, occursIn_cons, hp, hrec]
    rfl

theorem occursIn_five_false (q u p x t v : List Char)
    (hu : occursIn q u = false) (hp : occursIn q p = false) (hx : occursIn q x = false)
    (ht : occursIn q t = false) (hv : occursIn q v = false)
    (hlp : q.length ≤ p.length + 1) (hlt : q.length ≤ t.length + 1)
    (h1 : ∀ k, k < q.length → 0 < k → isSufB (q.take k) p = false)
    (h2 : ∀ k, k < q.length → 0 < k → isSufB (q.take k) t = false)
    (h3 : ∀ k, k < q.length → 0 < k → (q.drop k).isPrefixOf p = false)
    (h4 : ∀ k, k < q.length → 0 < k → (q.drop k).isPrefixOf t = false) :
    occursIn q (u ++ (p ++ (x ++ (t ++ v)))) = false := by
  have hA : occursIn q (t ++ v) = false :=
    occursIn_append_false ht hv (fun k hk1 hk2 => Or.inl (h2 k hk1 hk2))
  have hB : occursIn q (x ++ (t ++ v)) = false := by
    apply occursIn_append_false hx hA
    intro k hk1 hk2
    right
    cases hz : (q.drop k).isPrefixOf (t ++ v)
    · rfl
    · exfalso
      have hsh : (q.drop k).isPrefixOf t = true := by
        apply isPrefixOf_shorten hz
        have hql : (q.drop k).length = q.length - k := List.length_drop _ _
        omega
      rw [h4 k hk1 hk2] at hsh
      cases hsh
  have hC : occursIn q (p ++ (x ++ (t ++ v))) = false :=
    occursIn_append_false hp hB (fun k hk1 hk2 => Or.inl (h1 k hk1 hk2))
  apply occursIn_append_false hu hC
  intro k hk1 hk2
  right
  cases hz : (q.drop k).isPrefixOf (p ++ (x ++ (t ++ v)))
  · rfl
  · exfalso
    have hsh : (q.drop k).isPrefixOf p = true := by
      apply isPrefixOf_shorten hz
      have hql : (q.drop k).length = q.length - k := List.length_drop _ _
      omega
    rw [h3 k hk1 hk2] at hsh
    cases hsh

theorem skip_cond_internal (u X v : List Char)
    (hu : occursIn callIntOpen u = false) :
    ∀ w, isSufB w u = true → w ≠ [] →
      patInternal.isPrefixOf (w ++ (patInternal ++ (X ++ ')' :: v))) = false := by
  intro w hw hne
  cases hq : patInternal.isPrefixOf (w ++ (patInternal ++ (X ++ ')' :: v)))
  · rfl
  · exfalso
    rcases isPrefixOf_append_split hq with ⟨_, hqw⟩ | ⟨hlt, htk, hdr⟩
    · have hocc : occursIn patInternal u = true := occursIn_of_pref_suf hqw hw
      have hcall : occursIn callIntOpen u = true :=
        occursIn_mono (by decide : occursIn callIntOpen patInternal = true) hocc
      rw [hcall] at hu
      cases hu
    · have hk1 : 0 < w.length := by
        rcases w with _ | ⟨c, w'⟩
        · exact absurd rfl hne
        · simp
      have h23 : patInternal.length = 23 := by decide
      have hsh : (patInternal.drop w.length).isPrefixOf patInternal = true := by
        apply isPrefixOf_shorten hdr
        have hql : (patInternal.drop w.length).length = patInternal.length - w.length :=
          List.length_drop _ _
        omega
      have hfact : ∀ k, k < 23 → 0 < k →
          (patInternal.drop k).isPrefixOf patInternal = false := by decide
      rw [hfact w.length (by omega) hk1] at hsh
      cases hsh

theorem ruleInternal_decomp (u X v : List Char) (hX : X ≠ []) (hXc : ')' ∉ X)
    (hu : occursIn callIntOpen u = false) (hv : occursIn callIntOpen v = false) :
    ruleInternal (u ++ (patInternal ++ (X ++ ')' :: v))) =
      u ++ (preInternal ++ X ++ postInternal ++ v) := by
  unfold ruleInternal
  rw [reSub_append_of_skip (skip_cond_internal u X v hu)]
  rw [reSub_head_match (by decide) hX (argChar_of_not_mem hXc)]
  have hvp : occursIn patInternal v = false :=
    occursIn_false_lift (by decide : occursIn callIntOpen patInternal = true) hv
  rw [reSub_eq_self_of_hasMatch_false (hasMatch_false_of_occursIn_false hvp)]

/-- Claim C1: the three-line end-to-end scenario produces exactly the three
struct-literal lines, with each variant mapped to its field-name triple. -/
theorem claim1_end_to_end :
    fix_error_variants ("return Err(DbError::InternalError(\"boom\"));\nreturn Err(DbError::InvalidData(\"nope\"));\nreturn Err(DbError::SignatureError(\"bad sig\"));") =
      ("return Err(DbError::InternalError \x7b message: \"boom\", context: None, debug_info: None \x7d);\nreturn Err(DbError::InvalidData \x7b message: \"nope\", field: None, expected_format: None \x7d);\nreturn Err(DbError::SignatureError \x7b message: \"bad sig\", public_key: None, signature: None \x7d);") := by
  decide

/-- Claim C3: an input with zero occurrences of all three variant names is
returned byte-identical. -/
theorem claim3_no_variant_names_id (s : String)
    (h1 : occursIn nameInternal s.data = false)
    (h2 : occursIn nameInvalid s.data = false)
    (h3 : occursIn nameSignature s.data = false) :
    fix_error_variants s = s := by
  obtain ⟨d⟩ := s
  have r1 : ruleInternal d = d :=
    reSub_eq_self_of_hasMatch_false (hasMatch_false_of_occursIn_false
      (occursIn_false_lift (by decide : occursIn nameInternal patInternal = true) h1))
  have r2 : ruleInvalid d = d :=
    reSub_eq_self_of_hasMatch_false (hasMatch_false_of_occursIn_false
      (occursIn_false_lift (by decide : occursIn nameInvalid patInvalid = true) h2))
  have r3 : ruleSignature d = d :=
    reSub_eq_self_of_hasMatch_false (hasMatch_false_of_occursIn_false
      (occursIn_false_lift (by decide : occursIn nameSignature patSignature = true) h3))
  show (⟨ruleSignature (ruleInvalid (ruleInternal d))⟩ : String) = ⟨d⟩
  rw [r1, r2, r3]

/-- Witness for claim C3 at a concrete variant-free input. -/
theorem claim3_witness : fix_error_variants ("let x = 1;") = ("let x = 1;") :=
  claim3_no_variant_names_id ("let x = 1;") (by decide) (by decide) (by decide)

/-- Claim C4: a nested-parenthesis argument is truncated at the first inner
closing parenthesis, yielding exactly the known broken form. -/
theorem claim4_nested_truncation :
    fix_error_variants ("DbError::InvalidData(format!(\"bad \x7b\x7d\", x))") =
      ("DbError::InvalidData \x7b message: format!(\"bad \x7b\x7d\", x, field: None, expected_format: None \x7d)") := by
  decide

/-- Claim C5 counterexample: the transformation is not idempotent; a second
application changes the output when a converted argument still contains a
trigger substring. -/
theorem claim5_counterexample :
    fix_error_variants (fix_error_variants ("DbError::InternalError(DbError::InternalError(a) b)")) ≠
      fix_error_variants ("DbError::InternalError(DbError::InternalError(a) b)") := by
  decide

/-- Claim C5 (amended): a second application leaves the output unchanged
whenever the first output no longer carries a match of any of the three
patterns. -/
theorem claim5_amended (s : String)
    (h1 : hasMatch patInternal (fix_error_variants s).data = false)
    (h2 : hasMatch patInvalid (fix_error_variants s).data = false)
    (h3 : hasMatch patSignature (fix_error_variants s).data = false) :
    fix_error_variants (fix_error_variants s) = fix_error_variants s := by
  have r1 : ruleInternal (fix_error_variants s).data = (fix_error_variants s).data :=
    reSub_eq_self_of_hasMatch_false h1
  have r2 : ruleInvalid (fix_error_variants s).data = (fix_error_variants s).data :=
    reSub_eq_self_of_hasMatch_false h2
  have r3 : ruleSignature (fix_error_variants s).data = (fix_error_variants s).data :=
    reSub_eq_self_of_hasMatch_false h3
  show (⟨ruleSignature (ruleInvalid (ruleInternal (fix_error_variants s).data))⟩ : String) =
    fix_error_variants s
  rw [r1, r2, r3]

/-- Witness for claim C5 (amended) at a concrete single-call input. -/
theorem claim5_amended_witness :
    fix_error_variants (fix_error_variants ("DbError::InternalError(x)")) =
      fix_error_variants ("DbError::InternalError(x)") :=
  claim5_amended ("DbError::InternalError(x)") (by decide) (by decide) (by decide)

/-- Claim C6 counterexample: the rules do not commute; swapping the first
two rules changes the result when one variant call is nested in another
call's argument. -/
theorem claim6_counterexample :
    ruleSignature (ruleInternal (ruleInvalid (("DbError::InvalidData(DbError::InternalError(x) y)").data))) ≠
      ruleSignature (ruleInvalid (ruleInternal (("DbError::InvalidData(DbError::InternalError(x) y)").data))) := by
  decide

/-- Claim C6 (amended): all application orders of the three rules agree on
inputs in which the InvalidData and SignatureError names never occur and the
InternalError-rule output carries no match of the other two patterns. -/
theorem claim6_amended (l : List Char)
    (h2 : occursIn nameInvalid l = false) (h3 : occursIn nameSignature l = false)
    (h2' : hasMatch patInvalid (ruleInternal l) = false)
    (h3' : hasMatch patSignature (ruleInternal l) = false) :
    (ruleInvalid (ruleSignature (ruleInternal l)) = ruleSignature (ruleInvalid (ruleInternal l))) ∧
    (ruleSignature (ruleInternal (ruleInvalid l)) = ruleSignature (ruleInvalid (ruleInternal l))) ∧
    (ruleInternal (ruleSignature (ruleInvalid l)) = ruleSignature (ruleInvalid (ruleInternal l))) ∧
    (ruleInvalid (ruleInternal (ruleSignature l)) = ruleSignature (ruleInvalid (ruleInternal l))) ∧
    (ruleInternal (ruleInvalid (ruleSignature l)) = ruleSignature (ruleInvalid (ruleInternal l))) := by
  have e2 : ruleInvalid l = l :=
    reSub_eq_self_of_hasMatch_false (hasMatch_false_of_occursIn_false
      (occursIn_false_lift (by decide : occursIn nameInvalid patInvalid = true) h2))
  have e3 : ruleSignature l = l :=
    reSub_eq_self_of_hasMatch_false (hasMatch_false_of_occursIn_false
      (occursIn_false_lift (by decide : occursIn nameSignature patSignature = true) h3))
  have f2 : ruleInvalid (ruleInternal l) = ruleInternal l := reSub_eq_self_of_hasMatch_false h2'
  have f3 : ruleSignature (ruleInternal l) = ruleInternal l := reSub_eq_self_of_hasMatch_false h3'
  refine ⟨?_, ?_, ?_, ?_, ?_⟩ <;> simp [e2, e3, f2, f3]

/-- Witness for claim C6 (amended) at a concrete single-call input. -/
theorem claim6_amended_witness :
    ruleInvalid (ruleSignature (ruleInternal (("DbError::InternalError(x)").data))) =
      ruleSignature (ruleInvalid (ruleInternal (("DbError::InternalError(x)").data))) :=
  (claim6_amended (("DbError::InternalError(x)").data)
    (by decide) (by decide) (by decide) (by decide)).1

/-- Claim C7: when the target file is missing, the run fails, writes
nothing, prints nothing, and the file-system state is unchanged. -/
theorem claim7_read_failure_no_write (argv : List String) :
    runMain argv none = ⟨none, [], false⟩ := rfl

/-- Witness for claim C7 at a concrete argument vector. -/
theorem claim7_witness :
    runMain [("--force")] none = ⟨none, [], false⟩ :=
  claim7_read_failure_no_write [("--force")]

/-- Claim C8: the run is independent of the argument vector - two runs with
the same file content and different arguments give identical results. -/
theorem claim8_args_ignored (a1 a2 : List String) (fs : Option String) :
    runMain a1 fs = runMain a2 fs := rfl

/-- Witness for claim C8 at concrete argument vectors and file content. -/
theorem claim8_witness :
    runMain [] (some ("DbError::InternalError(x)")) =
      runMain [("-v")] (some ("DbError::InternalError(x)")) :=
  claim8_args_ignored [] [("-v")] (some ("DbError::InternalError(x)"))

/-- Claim C9 counterexample: an empty-argument call does not always survive
verbatim - a surrounding non-empty match can swallow its opening text. -/
theorem claim9_counterexample :
    occursIn emptyCallInternal (("DbError::InternalError(xDbError::InternalError()").data) = true ∧
    occursIn emptyCallInternal
      ((fix_error_variants ("DbError::InternalError(xDbError::InternalError()")).data) = false := by
  decide

/-- Claim C9 (amended): an empty-argument call itself never matches, so it
survives verbatim whenever no rule matches anywhere in the input. -/
theorem claim9_amended (u v : List Char)
    (h1 : hasMatch patInternal (u ++ emptyCallInternal ++ v) = false)
    (h2 : hasMatch patInvalid (u ++ emptyCallInternal ++ v) = false)
    (h3 : hasMatch patSignature (u ++ emptyCallInternal ++ v) = false) :
    fix_error_variants ⟨u ++ emptyCallInternal ++ v⟩ = ⟨u ++ emptyCallInternal ++ v⟩ ∧
    occursIn emptyCallInternal ((fix_error_variants ⟨u ++ emptyCallInternal ++ v⟩).data) = true := by
  have r1 : ruleInternal (u ++ emptyCallInternal ++ v) = u ++ emptyCallInternal ++ v :=
    reSub_eq_self_of_hasMatch_false h1
  have r2 : ruleInvalid (u ++ emptyCallInternal ++ v) = u ++ emptyCallInternal ++ v :=
    reSub_eq_self_of_hasMatch_false h2
  have r3 : ruleSignature (u ++ emptyCallInternal ++ v) = u ++ emptyCallInternal ++ v :=
    reSub_eq_self_of_hasMatch_false h3
  have hfix : fix_error_variants ⟨u ++ emptyCallInternal ++ v⟩ = ⟨u ++ emptyCallInternal ++ v⟩ := by
    show (⟨ruleSignature (ruleInvalid (ruleInternal (u ++ emptyCallInternal ++ v)))⟩ : String) = _
    rw [r1, r2, r3]
  refine ⟨hfix, ?_⟩
  rw [hfix]
  exact (occursIn_eq_true_iff _ _).mpr ⟨u, v, rfl⟩

/-- Witness for claim C9 (amended) at a concrete match-free surrounding. -/
theorem claim9_amended_witness :
    fix_error_variants ⟨("a ").data ++ emptyCallInternal ++ (" b").data⟩ =
      ⟨("a ").data ++ emptyCallInternal ++ (" b").data⟩ :=
  (claim9_amended (("a ").data) ((" b").data) (by decide) (by decide) (by decide)).1

/-- Claim C10: a match may span a line break - the negated character class
captures the newline inside the argument. -/
theorem claim10_match_spans_newline :
    fix_error_variants ("DbError::InternalError(a\nb)") =
      ("DbError::InternalError \x7b message: a\nb, context: None, debug_info: None \x7d") := by
  decide

/-- Claim C2 counterexample: a call with an enum path other than `DbError`
is left untouched - the output keeps the substring `InternalError(` and
never contains the struct-literal form for that path. -/
theorem claim2_counterexample :
    fix_error_variants ("Foo::InternalError(x)") = ("Foo::InternalError(x)") ∧
    occursIn callIntOpen ((fix_error_variants ("Foo::InternalError(x)")).data) = true ∧
    occursIn (("Foo::InternalError \x7b message: x, context: None, debug_info: None \x7d").data)
      ((fix_error_variants ("Foo::InternalError(x)")).data) = false := by
  decide

/-- Claim C2 (amended): with the enum path fixed to the literal `DbError`
the code anchors on, a well-formed call with a non-empty parenthesis-free
argument is rewritten to the struct-literal form, provided `InternalError(`
occurs nowhere else and the other two variant names are absent: the output
is the input with exactly that call converted, it contains the struct form,
and it contains no occurrence of `InternalError(`. -/
theorem claim2_amended (u X v : List Char) (hX : X ≠ []) (hXo : '(' ∉ X) (hXc : ')' ∉ X)
    (hu : occursIn callIntOpen u = false) (hv : occursIn callIntOpen v = false)
    (hnV : occursIn nameInvalid (u ++ (patInternal ++ (X ++ ')' :: v))) = false)
    (hnS : occursIn nameSignature (u ++ (patInternal ++ (X ++ ')' :: v))) = false) :
    fix_error_variants ⟨u ++ (patInternal ++ (X ++ ')' :: v))⟩ =
      ⟨u ++ (preInternal ++ X ++ postInternal ++ v)⟩ ∧
    occursIn (preInternal ++ X ++ postInternal)
      ((fix_error_variants ⟨u ++ (patInternal ++ (X ++ ')' :: v))⟩).data) = true ∧
    occursIn callIntOpen
      ((fix_error_variants ⟨u ++ (patInternal ++ (X ++ ')' :: v))⟩).data) = false := by
  have huIn : occursIn u (u ++ (patInternal ++ (X ++ ')' :: v))) = true :=
    (occursIn_eq_true_iff _ _).mpr ⟨[], patInternal ++ (X ++ ')' :: v), by simp⟩
  have hXIn : occursIn X (u ++ (patInternal ++ (X ++ ')' :: v))) = true :=
    (occursIn_eq_true_iff _ _).mpr ⟨u ++ patInternal, ')' :: v, by simp⟩
  have hvIn : occursIn v (u ++ (patInternal ++ (X ++ ')' :: v))) = true :=
    (occursIn_eq_true_iff _ _).mpr ⟨u ++ patInternal ++ X ++ [')'], [], by simp⟩
  have huV : occursIn nameInvalid u = false := occursIn_false_sub huIn hnV
  have hXV : occursIn nameInvalid X = false := occursIn_false_sub hXIn hnV
  have hvV : occursIn nameInvalid v = false := occursIn_false_sub hvIn hnV
  have huS : occursIn nameSignature u = false := occursIn_false_sub huIn hnS
  have hXS : occursIn nameSignature X = false := occursIn_false_sub hXIn hnS
  have hvS : occursIn nameSignature v = false := occursIn_false_sub hvIn hnS
  have hXI : occursIn callIntOpen X = false := by
    cases hcc : occursIn callIntOpen X
    · rfl
    · exact absurd (mem_of_occursIn hcc (by decide : '(' ∈ callIntOpen)) hXo
  have hOV : occursIn nameInvalid (u ++ (preInternal ++ (X ++ (postInternal ++ v)))) = false :=
    occursIn_five_false nameInvalid u preInternal X postInternal v
      huV (by decide) hXV (by decide) hvV (by decide) (by decide)
      (by decide) (by decide) (by decide) (by decide)
  have hOS : occursIn nameSignature (u ++ (preInternal ++ (X ++ (postInternal ++ v)))) = false :=
    occursIn_five_false nameSignature u preInternal X postInternal v
      huS (by decide) hXS (by decide) hvS (by decide) (by decide)
      (by decide) (by decide) (by decide) (by decide)
  have hOI : occursIn callIntOpen (u ++ (preInternal ++ (X ++ (postInternal ++ v)))) = false :=
    occursIn_five_false callIntOpen u preInternal X postInternal v
      hu (by decide) hXI (by decide) hv (by decide) (by decide)
      (by decide) (by decide) (by decide) (by decide)
  have hshape : u ++ (preInternal ++ X ++ postInternal ++ v) =
      u ++ (preInternal ++ (X ++ (postInternal ++ v))) := by
    simp [List.append_assoc]
  have hdec := ruleInternal_decomp u X v hX hXc hu hv
  have hr2 : ruleInvalid (u ++ (preInternal ++ X ++ postInternal ++ v)) =
      u ++ (preInternal ++ X ++ postInternal ++ v) :=
    reSub_eq_self_of_hasMatch_false (hasMatch_false_of_occursIn_false
      (occursIn_false_lift (by decide : occursIn nameInvalid patInvalid = true)
        (by rw [hshape]; exact hOV)))
  have hr3 : ruleSignature (u ++ (preInternal ++ X ++ postInternal ++ v)) =
      u ++ (preInternal ++ X ++ postInternal ++ v) :=
    reSub_eq_self_of_hasMatch_false (hasMatch_false_of_occursIn_false
      (occursIn_false_lift (by decide : occursIn nameSignature patSignature = true)
        (by rw [hshape]; exact hOS)))
  have hfix : fix_error_variants ⟨u ++ (patInternal ++ (X ++ ')' :: v))⟩ =
      ⟨u ++ (preInternal ++ X ++ postInternal ++ v)⟩ := by
    show (⟨ruleSignature (ruleInvalid (ruleInternal (u ++ (patInternal ++ (X ++ ')' :: v)))))⟩ :
      String) = _
    rw [hdec, hr2, hr3]
  refine ⟨hfix, ?_, ?_⟩
  · rw [hfix]
    show occursIn (preInternal ++ X ++ postInternal)
      (u ++ (preInternal ++ X ++ postInternal ++ v)) = true
    exact (occursIn_eq_true_iff _ _).mpr ⟨u, v, by simp [List.append_assoc]⟩
  · rw [hfix]
    show occursIn callIntOpen (u ++ (preInternal ++ X ++ postInternal ++ v)) = false
    rw [hshape]
    exact hOI

/-- Witness for claim C2 (amended) at a concrete decomposition. -/
theorem claim2_amended_witness :
    fix_error_variants ⟨("x = ").data ++ (patInternal ++ (("e").data ++ ')' :: (";").data))⟩ =
      ⟨("x = ").data ++ (preInternal ++ ("e").data ++ postInternal ++ (";").data)⟩ :=
  (claim2_amended (("x = ").data) (("e").data) ((";").data)
    (by decide) (by decide) (by decide) (by decide) (by decide) (by decide) (by decide)).1
